import Mathlib

/-!
# Verification of the Mixminion server core against its code

Shallow embedding of the parts of `mixminion/ServerInfo.py`,
`mixminion/server/ServerKeys.py` and `mixminion/server/ServerMain.py`
that the claims concern, with theorems settling each claim.
Times are modelled as integers (seconds); byte strings as `List Char`.
-/

/-! ## Descriptor validity windows (`ServerInfo.isValidAt` / `isExpiredAt`) -/

/-- The fields of a parsed `[Incoming/MMTP]` section that `ServerInfo.validate`
inspects.  `ip`/`hostname` are `""` when absent (Python falsiness). -/
structure IncomingMMTP where
  version : String
  ip : String
  hostname : String
  keyDigestLen : Nat
deriving DecidableEq

/-- The parsed `[Outgoing/MMTP]` section as inspected by `validate`. -/
structure OutgoingMMTP where
  version : String
deriving DecidableEq

/-- A parsed server descriptor, holding exactly the values that
`ServerInfo.validate` reads.  `computedDigest` models the digest recomputed
by `getServerInfoDigest(contents)`; `signedDigest` is `none` when
`pk_check_signature` raises `CryptoError`, and otherwise holds the digest
recovered from the `Signature` field. -/
structure SDescriptor where
  descriptorVersion : String
  identityBytes : Nat
  published : Int
  validAfter : Int
  validUntil : Int
  contact : Option String
  comments : Option String
  contactFingerprint : Option String
  packetKeyBytes : Nat
  digest : String
  computedDigest : String
  signedDigest : Option String
  incomingMMTP : Option IncomingMMTP
  outgoingMMTP : Option OutgoingMMTP
deriving DecidableEq

/-- `ServerInfo.isValidAt`: `Valid-After <= when <= Valid-Until`. -/
def isValidAt (d : SDescriptor) (when : Int) : Bool :=
  decide (d.validAfter ≤ when) && decide (when ≤ d.validUntil)

/-- `ServerInfo.isExpiredAt`: `Valid-Until < when`. -/
def isExpiredAt (d : SDescriptor) (when : Int) : Bool :=
  decide (d.validUntil < when)

/-! ## `ServerInfo.validate` (semantic checks on a parsed descriptor) -/

/-- Longest allowed Contact email (`MAX_CONTACT`). -/
def MAX_CONTACT : Nat := 256
/-- Longest allowed Comments field (`MAX_COMMENTS`). -/
def MAX_COMMENTS : Nat := 1024
/-- Longest allowed Contact-Fingerprint field (`MAX_FINGERPRINT`). -/
def MAX_FINGERPRINT : Nat := 128
/-- Shortest permissible identity key in bytes (`MIN_IDENTITY_BYTES = 2048 >> 3`). -/
def MIN_IDENTITY_BYTES : Nat := 256
/-- Longest permissible identity key in bytes (`MAX_IDENTITY_BYTES = 4096 >> 3`). -/
def MAX_IDENTITY_BYTES : Nat := 512
/-- Length of packet key in bytes (`PACKET_KEY_BYTES = 2048 >> 3`). -/
def PACKET_KEY_BYTES : Nat := 256
/-- Length of a SHA-1 digest (`DIGEST_LEN`). -/
def DIGEST_LEN : Nat := 20

/-- Length of an optional string field, `0` when the field is missing
(mirrors Python's `if server[k] and len(server[k]) > bound`). -/
def optLen : Option String → Nat
  | none => 0
  | some s => s.length

/-- `ServerInfo.validate`, translated check for check and in the source's
order (the `validatedDigests` fast path is taken to be absent, as when a
descriptor is first validated).  Returns the message of the first
`ConfigError` raised, or `.ok` when validation succeeds. -/
def validate (d : SDescriptor) (now : Int) : Except String Unit :=
  if d.descriptorVersion ≠ "0.2" then .error "Unrecognized descriptor version"
  else if d.computedDigest ≠ d.digest then .error "Invalid digest"
  else if ¬ (MIN_IDENTITY_BYTES ≤ d.identityBytes ∧
             d.identityBytes ≤ MAX_IDENTITY_BYTES) then
    .error "Invalid length on identity key"
  else if d.published > now + 600 then .error "Server published in the future"
  else if d.validUntil ≤ d.validAfter then .error "Server is never valid"
  else if optLen d.contact > MAX_CONTACT then .error "Contact too long"
  else if optLen d.comments > MAX_COMMENTS then .error "Comments too long"
  else if optLen d.contactFingerprint > MAX_FINGERPRINT then
    .error "Contact-Fingerprint too long"
  else if d.packetKeyBytes ≠ PACKET_KEY_BYTES then
    .error "Invalid length on packet key"
  else match d.signedDigest with
    | none => .error "Invalid signature"
    | some sd =>
      if d.computedDigest ≠ sd then .error "Signed digest is incorrect"
      else match d.incomingMMTP with
        | some im =>
          if im.version ≠ "0.1" then .error "Unrecognized MMTP descriptor version"
          else if im.keyDigestLen ≠ DIGEST_LEN then .error "Invalid key digest"
          else if im.ip = "" ∧ im.hostname = "" then
            .error "Incoming/MMTP section has neither IP nor hostname"
          else match d.outgoingMMTP with
            | some om =>
              if om.version ≠ "0.1" then
                .error "Unrecognized MMTP descriptor version"
              else .ok ()
            | none => .ok ()
        | none => match d.outgoingMMTP with
          | some om =>
            if om.version ≠ "0.1" then
              .error "Unrecognized MMTP descriptor version"
            else .ok ()
          | none => .ok ()

/-- The semantic constraints enumerated by the spec's *validate* sentence,
written from the spec's words (for comparison with `validate`): identity
modulus in `[256, 512]` bytes, packet modulus exactly 256 bytes,
`Valid-After < Valid-Until`, `Published <= now + 600`, bounded Contact /
Comments / Contact-Fingerprint, and a present `Incoming/MMTP` section
declaring a hostname or an IP. -/
def semanticConstraintsOK (d : SDescriptor) (now : Int) : Bool :=
  decide (MIN_IDENTITY_BYTES ≤ d.identityBytes) &&
  decide (d.identityBytes ≤ MAX_IDENTITY_BYTES) &&
  decide (d.packetKeyBytes = PACKET_KEY_BYTES) &&
  decide (d.validAfter < d.validUntil) &&
  decide (d.published ≤ now + 600) &&
  decide (optLen d.contact ≤ MAX_CONTACT) &&
  decide (optLen d.comments ≤ MAX_COMMENTS) &&
  decide (optLen d.contactFingerprint ≤ MAX_FINGERPRINT) &&
  (match d.incomingMMTP with
   | some im => !(decide (im.ip = "") && decide (im.hostname = ""))
   | none => true)

/-- The remaining checks `validate` performs besides the spec-enumerated
semantic constraints: recognized descriptor and section versions, declared
digest equal to the recomputed one, a signature that verifies to that digest,
and a 20-byte `Key-Digest` in a present `Incoming/MMTP` section. -/
def auxChecksOK (d : SDescriptor) : Bool :=
  decide (d.descriptorVersion = "0.2") &&
  decide (d.computedDigest = d.digest) &&
  decide (d.signedDigest = some d.computedDigest) &&
  (match d.incomingMMTP with
   | some im => decide (im.version = "0.1") && decide (im.keyDigestLen = DIGEST_LEN)
   | none => true) &&
  (match d.outgoingMMTP with
   | some om => decide (om.version = "0.1")
   | none => true)

/-! ## `ServerKeyring._getLiveKeys` -/

/-- `ServerKeyring._getLiveKeys`: keysets are `(Valid-After, Valid-Until, id)`
triples; the source keeps those with `va < now` and `vu > now - keyOverlap`,
returning `[]` outright when the keyring is empty. -/
def getLiveKeys (keySets : List (Int × Int × Nat)) (keyOverlap now : Int) :
    List (Int × Int × Nat) :=
  if keySets = [] then []
  else
    let cutoff := now - keyOverlap
    keySets.filter (fun k => decide (k.1 < now) && decide (k.2.1 > cutoff))

/-- The live-key set as the claim words it (for comparison with
`getLiveKeys`): `Valid-After <= t` and `t <= Valid-Until + keyOverlap`. -/
def getLiveKeysClaim (keySets : List (Int × Int × Nat)) (keyOverlap now : Int) :
    List (Int × Int × Nat) :=
  keySets.filter (fun k => decide (k.1 ≤ now) && decide (now ≤ k.2.1 + keyOverlap))

/-! ## The scheduler main loop (`MixminionServer.run`) -/

/-- Elementary actions of the scheduler's inner wait loop, in the order the
source performs them while `timeLeft > 0`. -/
inductive LoopAct
  | processNet (timeout : Int)
  | checkStoppingFlag
  | shutdownReturn
  | checkHupFlag
  | resetLogs
  | checkThreadsAlive
  | fatalReturn
deriving DecidableEq

/-- One iteration of the scheduler's inner loop (`MixminionServer.run`,
`while timeLeft > 0`): call `self.mmtpServer.process(2)`, test `STOPPING`
(returning if set), test `GOT_HUP` (resetting logs if set), then test that
the worker threads are alive (returning fatally if not).  The emitted trace
records each action. -/
def innerIteration (timeLeft : Int) (stopping gotHup threadsAlive : Bool) :
    List LoopAct :=
  if timeLeft > 0 then
    [.processNet 2, .checkStoppingFlag] ++
    (if stopping then [.shutdownReturn]
     else [.checkHupFlag] ++ (if gotHup then [.resetLogs] else []) ++
          [.checkThreadsAlive] ++ (if threadsAlive then [] else [.fatalReturn]))
  else []

/-! ## The mix pool (`MixPool`) and the MIX event -/

/-- An object stored in the mix pool.  `delivery` and `relay` are
`DeliveryPacket` and `RelayedPacket` instances; `obsolete` is the
pre-0.0.3 tuple format that `MixPool.mix` skips.  The `Nat` tags identity,
so that multiset bookkeeping is meaningful. -/
inductive PoolObj
  | relay (id : Nat)
  | delivery (id : Nat)
  | obsolete (id : Nat)
deriving DecidableEq

/-- `obj.isDelivery()` as invoked by `MixPool.queueObject` as an implicit
typecheck: `none` models the `AttributeError` a tuple-format object raises,
so such an object never enters the pool through `queueObject`. -/
def isDeliveryCheck : PoolObj → Option Bool
  | .obsolete _ => none
  | .delivery _ => some true
  | .relay _ => some false

/-- Actions the MIX event of the scheduler performs, in source order:
`mixPool.lock()`, `packetHandler.syncLogs()`, `mixPool.mix()` (which takes
a batch and hands each selected packet to the module manager or the
outgoing queue), `mixPool.unlock()`, the two send cycles, and the
reinsertion of the next MIX event. -/
inductive MixAct
  | lockPool
  | syncLogs
  | getBatch
  | sendToModuleManager (o : PoolObj)
  | sendToOutgoingQueue (o : PoolObj)
  | skipObsolete (o : PoolObj)
  | unlockPool
  | sendOutgoingReady
  | sendExitReady
  | reinsertMix
deriving DecidableEq

/-- The dispatch step of `MixPool.mix` for one selected object: obsolete
tuples are skipped, deliveries go to the module manager, relays to the
outgoing queue. -/
def dispatchAct (o : PoolObj) : MixAct :=
  match o with
  | .obsolete _ => .skipObsolete o
  | .delivery _ => .sendToModuleManager o
  | .relay _ => .sendToOutgoingQueue o

/-- The actions of `MixPool.mix`: nothing when the pool is empty, otherwise
`getBatch` followed by one dispatch per selected object. -/
def mixActs (count : Nat) (batch : List PoolObj) : List MixAct :=
  if count = 0 then [] else .getBatch :: batch.map dispatchAct

/-- The full trace of the scheduler's MIX event (`MixminionServer.run`,
`event == 'MIX'` branch), with `count` the pool size and `batch` the
objects `getBatch` selects. -/
def mixEventTrace (count : Nat) (batch : List PoolObj) : List MixAct :=
  .lockPool :: .syncLogs :: mixActs count batch ++
    [.unlockPool, .sendOutgoingReady, .sendExitReady, .reinsertMix]

/-! ## Theorems for claims C10, C6, C5, C1 -/

/-- **C10.** Validity endpoints are inclusive and expiry strict:
`isValidAt(t)` holds iff `Valid-After <= t <= Valid-Until`, `isExpiredAt(when)`
iff `Valid-Until < when`, and at `t = Valid-Until` a descriptor (whose
interval is nonempty) is simultaneously valid and not expired. -/
theorem C10_validity_boundaries (d : SDescriptor) (t : Int) :
    (isValidAt d t = true ↔ (d.validAfter ≤ t ∧ t ≤ d.validUntil)) ∧
    (isExpiredAt d t = true ↔ d.validUntil < t) ∧
    (d.validAfter ≤ d.validUntil →
      isValidAt d d.validUntil = true ∧ isExpiredAt d d.validUntil = false) := by
  refine ⟨by simp [isValidAt], by simp [isExpiredAt], fun h => ⟨by simp [isValidAt, h], by simp [isExpiredAt]⟩⟩

/-- Witness for C10 at a concrete descriptor and time. -/
theorem C10_validity_boundaries_witness :
    isValidAt
      { descriptorVersion := "0.2", identityBytes := 256, published := 0,
        validAfter := 10, validUntil := 20, contact := none, comments := none,
        contactFingerprint := none, packetKeyBytes := 256, digest := "d",
        computedDigest := "d", signedDigest := some "d", incomingMMTP := none,
        outgoingMMTP := none } 20 = true ∧
    isExpiredAt
      { descriptorVersion := "0.2", identityBytes := 256, published := 0,
        validAfter := 10, validUntil := 20, contact := none, comments := none,
        contactFingerprint := none, packetKeyBytes := 256, digest := "d",
        computedDigest := "d", signedDigest := some "d", incomingMMTP := none,
        outgoingMMTP := none } 20 = false :=
  (C10_validity_boundaries
      { descriptorVersion := "0.2", identityBytes := 256, published := 0,
        validAfter := 10, validUntil := 20, contact := none, comments := none,
        contactFingerprint := none, packetKeyBytes := 256, digest := "d",
        computedDigest := "d", signedDigest := some "d", incomingMMTP := none,
        outgoingMMTP := none } 20).2.2 (by decide)

/-- **C6 (counterexample).** At `t = Valid-After` the code excludes a keyset
that the claim's non-strict bounds include: with one keyset valid on
`[100, 200]` and overlap `50`, `_getLiveKeys(100)` returns nothing although
`Valid-After <= 100 <= Valid-Until + overlap`. -/
theorem C6_counterexample :
    getLiveKeys [(100, 200, 0)] 50 100 = [] ∧
    getLiveKeysClaim [(100, 200, 0)] 50 100 = [(100, 200, 0)] := by
  constructor <;> rfl

/-- **C6 (amended).** `_getLiveKeys(t)` returns exactly the keysets with
`Valid-After < t` strictly and `t - keyOverlap < Valid-Until` strictly
(equivalently `t < Valid-Until + keyOverlap`). -/
theorem C6_live_keys_strict (keySets : List (Int × Int × Nat))
    (keyOverlap now : Int) (k : Int × Int × Nat) :
    k ∈ getLiveKeys keySets keyOverlap now ↔
      (k ∈ keySets ∧ k.1 < now ∧ now - keyOverlap < k.2.1) := by
  unfold getLiveKeys
  by_cases h : keySets = []
  · simp [h]
  · simp [h, List.mem_filter, and_assoc]

/-- **C5 (counterexample).** With one second left before the next event, the
source still calls `process` with a two-second timeout: the first action of
the iteration is `processNet 2`, not `processNet (min 1 2) = processNet 1`
as the claim demands. -/
theorem C5_counterexample :
    (innerIteration 1 false false true).head? = some (.processNet 2) ∧
    (innerIteration 1 false false true).head? ≠
      some (.processNet (min 1 2)) := by
  constructor <;> decide

/-- **C5 (amended).** In every inner-loop iteration with `timeLeft > 0` the
scheduler calls the transport's `process` with a constant timeout of 2
seconds (every `processNet` in the trace carries timeout 2, regardless of
`timeLeft`), then checks the `STOPPING` flag, then (when not stopping) the
`GOT_HUP` flag, then health-checks the worker threads, ending fatally when
one has died. -/
theorem C5_inner_loop (timeLeft : Int) (stopping gotHup threadsAlive : Bool)
    (h : 0 < timeLeft) :
    (innerIteration timeLeft stopping gotHup threadsAlive).head? =
        some (.processNet 2) ∧
    (innerIteration timeLeft stopping gotHup threadsAlive)[1]? =
        some .checkStoppingFlag ∧
    (∀ t, LoopAct.processNet t ∈ innerIteration timeLeft stopping gotHup threadsAlive
        → t = 2) ∧
    (stopping = false →
      LoopAct.checkHupFlag ∈ innerIteration timeLeft stopping gotHup threadsAlive ∧
      LoopAct.checkThreadsAlive ∈ innerIteration timeLeft stopping gotHup threadsAlive) ∧
    (stopping = false → threadsAlive = false →
      (innerIteration timeLeft stopping gotHup threadsAlive).getLast? =
        some .fatalReturn) := by
  unfold innerIteration
  rw [if_pos h]
  cases stopping <;> cases gotHup <;> cases threadsAlive <;> simp

/-- Witness for C5 (amended) at `timeLeft = 1` with both worker threads dead. -/
theorem C5_inner_loop_witness :
    (innerIteration 1 false false false).head? = some (.processNet 2) ∧
    (innerIteration 1 false false false).getLast? = some .fatalReturn :=
  ⟨(C5_inner_loop 1 false false false (by decide)).1,
   (C5_inner_loop 1 false false false (by decide)).2.2.2.2 rfl rfl⟩

/-- **C1.** On every MIX event the trace is: acquire the mix-pool lock, sync
the replay logs, then the mix body (batch selection and per-packet dispatch),
then release the lock, then the outgoing and exit send cycles and the
reinsertion.  Every handing of a packet to the outgoing queue or the module
manager lies strictly inside the body, hence after the sync and before the
unlock. -/
theorem C1_mix_event_order (count : Nat) (batch : List PoolObj) :
    mixEventTrace count batch =
      [.lockPool, .syncLogs] ++ mixActs count batch ++
        [.unlockPool, .sendOutgoingReady, .sendExitReady, .reinsertMix] ∧
    (∀ a ∈ mixActs count batch, a = .getBatch ∨ ∃ o, a = dispatchAct o) ∧
    (∀ o : PoolObj,
      MixAct.sendToModuleManager o ∉
        ([.lockPool, .syncLogs] : List MixAct) ∧
      MixAct.sendToOutgoingQueue o ∉
        ([.lockPool, .syncLogs] : List MixAct)) := by
  refine ⟨by simp [mixEventTrace], ?_, by simp⟩
  intro a ha
  unfold mixActs at ha
  by_cases h : count = 0
  · simp [h] at ha
  · rw [if_neg h] at ha
    simp only [List.mem_cons, List.mem_map] at ha
    rcases ha with h1 | ⟨o, _, rfl⟩
    · exact Or.inl h1
    · exact Or.inr ⟨o, rfl⟩

/-! ## Theorems for claim C7 (`ServerInfo.validate`) -/

/-- **C7 (counterexample).** A descriptor meeting every semantic constraint
the claim enumerates is still rejected when its declared digest differs from
the recomputed one, so `validate` does not "accept otherwise". -/
theorem C7_counterexample :
    semanticConstraintsOK
      { descriptorVersion := "0.2", identityBytes := 256, published := 0,
        validAfter := 0, validUntil := 86400, contact := none, comments := none,
        contactFingerprint := none, packetKeyBytes := 256, digest := "aaaa",
        computedDigest := "bbbb", signedDigest := some "bbbb",
        incomingMMTP := none, outgoingMMTP := none } 0 = true ∧
    validate
      { descriptorVersion := "0.2", identityBytes := 256, published := 0,
        validAfter := 0, validUntil := 86400, contact := none, comments := none,
        contactFingerprint := none, packetKeyBytes := 256, digest := "aaaa",
        computedDigest := "bbbb", signedDigest := some "bbbb",
        incomingMMTP := none, outgoingMMTP := none } 0 =
      .error "Invalid digest" := by
  constructor <;> rfl

/-- **C7 (amended).** `validate` raises `ConfigError` whenever one of the
enumerated semantic constraints is violated, and accepts exactly when those
constraints hold *and* the auxiliary checks pass as well (recognized
versions, digest match, verifying signature, 20-byte `Key-Digest`). -/
theorem ite_error_ok {c : Prop} [Decidable c] {e : String}
    {rest : Except String Unit} :
    (if c then Except.error e else rest) = .ok () ↔ (¬ c ∧ rest = .ok ()) := by
  split_ifs with h <;> simp [h]

theorem C7_validate_iff (d : SDescriptor) (now : Int) :
    validate d now = .ok () ↔
      (semanticConstraintsOK d now = true ∧ auxChecksOK d = true) := by
  rcases d with ⟨dv, ib, pub, va, vu, ct, cm, cf, pk, dg, cd, sd, im, om⟩
  cases sd <;> rcases im with _ | ⟨imv, imip, imhn, imkd⟩ <;>
      rcases om with _ | ⟨omv⟩ <;>
    · simp only [validate, semanticConstraintsOK, auxChecksOK, ite_error_ok,
        not_le, not_lt, ne_eq, not_not, Bool.and_eq_true, decide_eq_true_eq,
        Bool.not_eq_true', Bool.and_eq_false_iff, decide_eq_false_iff_not,
        Option.some.injEq, reduceCtorEq, and_true, and_false, true_and,
        false_and, iff_false, gt_iff_lt]
      try tauto

/-! ## Key publication (`ServerKeyset.publish`, `ServerKeyring.publishKeys`) -/

/-- Drop a run of spaces and tabs (the `[ \t]*` of `DIRECTORY_RESPONSE_RE`). -/
def dropWT (l : List Char) : List Char :=
  l.dropWhile (fun c => c = ' ' || c = '\t')

/-- Try to match `DIRECTORY_RESPONSE_RE` = `^Status: (0|1)[ \t]*\nMessage: (.*)$`
at a line start.  Returns the status group as a boolean (`'1' ↦ true`) when
the position matches; `(.*)$` always matches the rest of the line, so only
the part up to and including `Message: ` is checked. -/
def matchStatusLine (l : List Char) : Option Bool :=
  if "Status: ".toList.isPrefixOf l then
    match l.drop 8 with
    | d :: rest =>
      if d = '0' || d = '1' then
        match dropWT rest with
        | '\n' :: rest2 =>
          if "Message: ".toList.isPrefixOf rest2 then some (d = '1') else none
        | _ => none
      else none
    | [] => none
  else none

/-- The tail of `l` starting just after its first newline (`[]` when `l`
has no newline): the next position at which `re.M`'s `^` can match. -/
def nextLine (l : List Char) : List Char :=
  (l.dropWhile (fun c => c ≠ '\n')).drop 1

/-- Fuelled scan behind `searchStatus`.  The fuel only bounds the recursion
depth; since `nextLine` shortens a nonempty list by at least one character,
fuel `l.length` is never exhausted before the list is. -/
def searchStatusAux (fuel : Nat) (l : List Char) : Option Bool :=
  match fuel, l with
  | 0, _ => none
  | _, [] => none
  | f + 1, c :: rest =>
    match matchStatusLine (c :: rest) with
    | some b => some b
    | none => searchStatusAux f (nextLine (c :: rest))

/-- `DIRECTORY_RESPONSE_RE.search(reply)`: try the pattern at the start of
the string and at each subsequent line start, returning the first match's
status group. -/
def searchStatus (l : List Char) : Option Bool :=
  searchStatusAux l.length l

/-- Outcome of one `ServerKeyset.publish` call. -/
inductive PubStatus
  | accept
  | reject
  | error
deriving DecidableEq

/-- What the directory-server interaction produced: `netError` models an
exception from `urlopen`/`read`, and `reply` a response with its
`Content-Type` header and body. -/
inductive PubResponse
  | netError
  | reply (contentType : String) (body : List Char)
deriving DecidableEq

/-- `ServerKeyset.publish`, given the directory's response: the returned
status together with whether the `published` marker file was created
(`markAsPublished` runs only in the accept branch). -/
def publishStep : PubResponse → PubStatus × Bool
  | .netError => (.error, false)
  | .reply ct body =>
    if ct ≠ "text/plain" then (.error, false)
    else
      match searchStatus body with
      | none => (.error, false)
      | some true => (.accept, true)
      | some false => (.reject, false)

/-- The loop of `ServerKeyring.publishKeys` over the unpublished keysets,
each paired with the response its upload produces.  Returns the statuses of
the uploads actually attempted (the loop stops at the first `error`) and
`none` on abort, or `some rejectedCount` when the loop finishes. -/
def publishKeysLoop : List PubResponse → List PubStatus × Option Nat
  | [] => ([], some 0)
  | r :: rest =>
    match (publishStep r).1 with
    | .error => ([.error], none)
    | .reject =>
      (.reject :: (publishKeysLoop rest).1, ((publishKeysLoop rest).2).map (· + 1))
    | .accept => (.accept :: (publishKeysLoop rest).1, (publishKeysLoop rest).2)

/-- `ServerKeyring.publishKeys`: true (`1`) exactly when the loop finished
with no rejections; an `error` abort or any rejection yields false (`0`). -/
def publishKeys (rs : List PubResponse) : Bool :=
  match (publishKeysLoop rs).2 with
  | some 0 => true
  | _ => false

/-- Helper for C8: a prefix of non-error uploads contributes its statuses to
the attempted trace, and an `error` stops the loop there: the responses
after it are never attempted. -/
theorem publishKeysLoop_abort (pre : List PubResponse) (r : PubResponse)
    (post : List PubResponse)
    (hpre : ∀ x ∈ pre, (publishStep x).1 ≠ .error)
    (hr : (publishStep r).1 = .error) :
    publishKeysLoop (pre ++ r :: post) =
      (pre.map (fun x => (publishStep x).1) ++ [.error], none) := by
  induction pre with
  | nil => simp [publishKeysLoop, hr]
  | cons x xs ih =>
    have hx := hpre x (List.mem_cons_self x xs)
    have ihh := ih (fun y hy => hpre y (List.mem_cons_of_mem x hy))
    rw [List.cons_append]
    unfold publishKeysLoop
    rcases h : (publishStep x).1 with _ | _ | _ <;> simp_all [publishKeysLoop]

/-- **C8.** `publish` returns `accept` and creates the `published` marker
exactly for a `text/plain` response matching the status pattern with
`Status: 1`; a matching `Status: 0` response gives `reject` without a
marker; any other response (wrong content type, unparseable reply, network
exception) gives `error`.  `publishKeys` aborts the batch at the first
`error` (later keysets are not attempted) and returns false, while a
`reject` lets it continue with the rest and count the rejection. -/
theorem C8_publish_outcomes :
    (∀ body, publishStep (.reply "text/plain" body) =
       (match searchStatus body with
        | some true => (.accept, true)
        | some false => (.reject, false)
        | none => (.error, false))) ∧
    (∀ ct body, ct ≠ "text/plain" → publishStep (.reply ct body) = (.error, false)) ∧
    publishStep .netError = (.error, false) ∧
    (∀ r, (publishStep r).2 = true ↔ (publishStep r).1 = .accept) ∧
    (∀ pre r post, (∀ x ∈ pre, (publishStep x).1 ≠ .error) →
       (publishStep r).1 = .error →
       publishKeysLoop (pre ++ r :: post) =
         (pre.map (fun x => (publishStep x).1) ++ [.error], none) ∧
       publishKeys (pre ++ r :: post) = false) ∧
    (∀ r rest, (publishStep r).1 = .reject →
       publishKeysLoop (r :: rest) =
         (.reject :: (publishKeysLoop rest).1,
          ((publishKeysLoop rest).2).map (· + 1))) := by
  refine ⟨?_, ?_, rfl, ?_, ?_, ?_⟩
  · intro body
    cases h : searchStatus body with
    | none => simp [publishStep, h]
    | some b => cases b <;> simp [publishStep, h]
  · intro ct body hct
    simp [publishStep, hct]
  · intro r
    cases r with
    | netError => simp [publishStep]
    | reply ct body =>
      by_cases hct : ct = "text/plain"
      · subst hct
        cases h : searchStatus body with
        | none => simp [publishStep, h]
        | some b => cases b <;> simp [publishStep, h]
      · simp [publishStep, hct]
  · intro pre r post h1 h2
    have habort := publishKeysLoop_abort pre r post h1 h2
    exact ⟨habort, by simp [publishKeys, habort]⟩
  · intro r rest h
    simp [publishKeysLoop, h]

/-- Witness for C8: an accepted upload followed by a network error aborts
the batch (the third keyset is never attempted) and `publishKeys` is false. -/
theorem C8_publish_outcomes_witness :
    publishKeys
      [PubResponse.reply "text/plain" "Status: 1\nMessage: ok".toList,
       PubResponse.netError,
       PubResponse.reply "text/plain" "Status: 1\nMessage: ok".toList] = false :=
  (C8_publish_outcomes.2.2.2.2.1
      [PubResponse.reply "text/plain" "Status: 1\nMessage: ok".toList]
      PubResponse.netError
      [PubResponse.reply "text/plain" "Status: 1\nMessage: ok".toList]
      (by decide) (by decide)).2

/-! ## Canonicalization (`ServerInfo._cleanForDigest`) -/

/-- A space or tab, the character class of `_leading_whitespace_re` and
`_trailing_whitespace_re`. -/
def isSpaceTab (c : Char) : Bool := c = ' ' || c = '\t'

/-- `_abnormal_line_ending_re.sub("\n", s)`: replace every CRLF or lone CR
with a single LF (the regex `\r\n?`, leftmost-greedy). -/
def normCR : List Char → List Char
  | [] => []
  | '\r' :: '\n' :: rest => '\n' :: normCR rest
  | '\r' :: rest => '\n' :: normCR rest
  | c :: rest => c :: normCR rest

/-- Split on `'\n'`, keeping the (possibly empty) chunks between
separators; the line decomposition on which the two `re.M` whitespace
substitutions act. -/
def splitNL : List Char → List (List Char)
  | [] => [[]]
  | c :: rest =>
    if c = '\n' then [] :: splitNL rest
    else
      match splitNL rest with
      | [] => [[c]]
      | l :: ls => (c :: l) :: ls

/-- Rejoin chunks with `'\n'`; inverse of `splitNL`. -/
def joinNL : List (List Char) → List Char
  | [] => []
  | l :: ls =>
    match ls with
    | [] => l
    | _ :: _ => l ++ '\n' :: joinNL ls

/-- Per-line effect of `_trailing_whitespace_re.sub("")` followed by
`_leading_whitespace_re.sub("")`: strip trailing, then leading, spaces and
tabs. -/
def stripLine (l : List Char) : List Char :=
  (l.rdropWhile isSpaceTab).dropWhile isSpaceTab

/-- `_cleanForDigest`: normalize line endings, strip trailing then leading
whitespace on each line, and append a final LF if the result does not
already end with one. -/
def cleanForDigest (s : List Char) : List Char :=
  let t := joinNL ((splitNL (normCR s)).map stripLine)
  if t.getLast? = some '\n' then t else t ++ ['\n']

theorem normCR_no_cr (s : List Char) : '\r' ∉ normCR s := by
  induction s using normCR.induct with
  | case1 => simp [normCR]
  | case2 rest ih => simpa [normCR] using ih
  | case3 rest h ih => simp_all [normCR]
  | case4 c rest h1 h2 ih => simp_all [normCR, eq_comm]

theorem normCR_eq_self (s : List Char) (h : '\r' ∉ s) : normCR s = s := by
  induction s using normCR.induct with
  | case1 => rfl
  | case2 rest ih => simp at h
  | case3 rest h3 ih => simp at h
  | case4 c rest h1 h2 ih =>
    simp only [List.mem_cons, not_or] at h
    simp_all [normCR]

theorem splitNL_cons_nl (rest : List Char) :
    splitNL ('\n' :: rest) = [] :: splitNL rest := by
  simp [splitNL]

theorem splitNL_cons_ne_nil_case (c : Char) (rest : List Char) (hc : ¬ c = '\n')
    (hsp : splitNL rest = []) : splitNL (c :: rest) = [[c]] := by
  simp only [splitNL]
  rw [if_neg hc, hsp]

theorem splitNL_cons_ne (c : Char) (rest : List Char) (hc : ¬ c = '\n')
    (l0 : List Char) (ls : List (List Char)) (hsp : splitNL rest = l0 :: ls) :
    splitNL (c :: rest) = (c :: l0) :: ls := by
  simp only [splitNL]
  rw [if_neg hc, hsp]

theorem splitNL_ne_nil (l : List Char) : splitNL l ≠ [] := by
  induction l using splitNL.induct with
  | case1 => simp [splitNL]
  | case2 rest ih => simp [splitNL_cons_nl]
  | case3 c rest hc hsp ih => simp [splitNL_cons_ne_nil_case c rest hc hsp]
  | case4 c rest hc l0 ls hsp ih => simp [splitNL_cons_ne c rest hc l0 ls hsp]

theorem splitNL_no_nl (l : List Char) : ∀ m ∈ splitNL l, '\n' ∉ m := by
  induction l using splitNL.induct with
  | case1 => simp [splitNL]
  | case2 rest ih =>
    intro m hm
    rw [splitNL_cons_nl] at hm
    rcases List.mem_cons.1 hm with rfl | hm
    · simp
    · exact ih m hm
  | case3 c rest hc hsp ih =>
    intro m hm
    rw [splitNL_cons_ne_nil_case c rest hc hsp] at hm
    rcases List.mem_cons.1 hm with rfl | hm
    · simp only [List.mem_singleton]
      exact fun h => hc h.symm
    · simp at hm
  | case4 c rest hc l0 ls hsp ih =>
    intro m hm
    rw [splitNL_cons_ne c rest hc l0 ls hsp] at hm
    rcases List.mem_cons.1 hm with rfl | hm
    · have h0 := ih l0 (by rw [hsp]; exact List.mem_cons_self _ _)
      simp only [List.mem_cons, not_or]
      exact ⟨fun h => hc h.symm, h0⟩
    · exact ih m (by rw [hsp]; exact List.mem_cons_of_mem _ hm)

theorem splitNL_subset (l : List Char) :
    ∀ m ∈ splitNL l, ∀ c ∈ m, c ∈ l := by
  induction l using splitNL.induct with
  | case1 => simp [splitNL]
  | case2 rest ih =>
    intro m hm c hc
    rw [splitNL_cons_nl] at hm
    rcases List.mem_cons.1 hm with rfl | hm
    · simp at hc
    · exact List.mem_cons_of_mem _ (ih m hm c hc)
  | case3 c0 rest hc0 hsp ih =>
    intro m hm c hc
    rw [splitNL_cons_ne_nil_case c0 rest hc0 hsp] at hm
    rcases List.mem_cons.1 hm with rfl | hm
    · simp only [List.mem_singleton] at hc
      simp [hc]
    · simp at hm
  | case4 c0 rest hc0 l0 ls hsp ih =>
    intro m hm c hc
    rw [splitNL_cons_ne c0 rest hc0 l0 ls hsp] at hm
    rcases List.mem_cons.1 hm with rfl | hm
    · rcases List.mem_cons.1 hc with rfl | hc2
      · exact List.mem_cons_self _ _
      · exact List.mem_cons_of_mem _
          (ih l0 (by rw [hsp]; exact List.mem_cons_self _ _) c hc2)
    · exact List.mem_cons_of_mem _
        (ih m (by rw [hsp]; exact List.mem_cons_of_mem _ hm) c hc)

theorem stripLine_subset (l : List Char) : ∀ c ∈ stripLine l, c ∈ l := by
  intro c hc
  have h1 : c ∈ l.rdropWhile isSpaceTab :=
    (List.dropWhile_sublist _).subset hc
  exact (List.rdropWhile_prefix _ _).sublist.subset h1

theorem joinNL_cons_cons (l m : List Char) (ls : List (List Char)) :
    joinNL (l :: m :: ls) = l ++ '\n' :: joinNL (m :: ls) := by
  simp [joinNL]

theorem joinNL_splitNL (l : List Char) : joinNL (splitNL l) = l := by
  induction l using splitNL.induct with
  | case1 => rfl
  | case2 rest ih =>
    rw [splitNL_cons_nl]
    rcases hsp : splitNL rest with _ | ⟨a, as⟩
    · exact absurd hsp (splitNL_ne_nil rest)
    · rw [hsp] at ih
      rw [joinNL_cons_cons, ← ih]
      simp
  | case3 c rest hc hsp ih => exact absurd hsp (splitNL_ne_nil rest)
  | case4 c rest hc l0 ls hsp ih =>
    rw [splitNL_cons_ne c rest hc l0 ls hsp]
    rw [hsp] at ih
    cases ls with
    | nil =>
      simp only [joinNL] at ih ⊢
      rw [ih]
    | cons b bs =>
      rw [joinNL_cons_cons] at ih ⊢
      rw [← ih]
      simp

theorem splitNL_of_not_mem (l : List Char) (h : '\n' ∉ l) : splitNL l = [l] := by
  induction l using splitNL.induct with
  | case1 => rfl
  | case2 rest ih => simp at h
  | case3 c rest hc hsp ih => exact absurd hsp (splitNL_ne_nil rest)
  | case4 c rest hc l0 ls hsp ih =>
    simp only [List.mem_cons, not_or] at h
    have h2 := ih h.2
    rw [h2] at hsp
    rcases hsp with ⟨rfl, rfl⟩
    exact splitNL_cons_ne c rest hc rest [] h2

theorem splitNL_append_cons (l m : List Char) (h : '\n' ∉ l) :
    splitNL (l ++ '\n' :: m) = l :: splitNL m := by
  induction l with
  | nil => simpa using splitNL_cons_nl m
  | cons c rest ih =>
    simp only [List.mem_cons, not_or] at h
    have ih2 := ih h.2
    rw [List.cons_append]
    rw [splitNL_cons_ne c (rest ++ '\n' :: m) (fun e => h.1 e.symm) (rest)
      (splitNL m) ih2]

theorem splitNL_joinNL (ls : List (List Char)) (hne : ls ≠ [])
    (hfree : ∀ m ∈ ls, '\n' ∉ m) : splitNL (joinNL ls) = ls := by
  induction ls using joinNL.induct with
  | case1 => exact absurd rfl hne
  | case2 l =>
    show splitNL (joinNL [l]) = [l]
    simp only [joinNL]
    exact splitNL_of_not_mem l (hfree l (List.mem_singleton.2 rfl))
  | case3 l m ls ih =>
    rw [joinNL_cons_cons]
    rw [splitNL_append_cons _ _ (hfree l (List.mem_cons_self _ _))]
    rw [ih (by simp) (fun x hx => hfree x (List.mem_cons_of_mem _ hx))]

theorem splitNL_concat_nl (l : List Char) :
    splitNL (l ++ ['\n']) = splitNL l ++ [[]] := by
  induction l using splitNL.induct with
  | case1 =>
    show splitNL ['\n'] = splitNL [] ++ [[]]
    rw [splitNL_cons_nl]
    rfl
  | case2 rest ih =>
    rw [List.cons_append, splitNL_cons_nl, splitNL_cons_nl, ih]
    rfl
  | case3 c rest hc hsp ih => exact absurd hsp (splitNL_ne_nil rest)
  | case4 c rest hc l0 ls hsp ih =>
    rw [List.cons_append]
    rw [hsp] at ih
    rw [splitNL_cons_ne c (rest ++ ['\n']) hc l0 (ls ++ [[]]) (by simpa using ih)]
    rw [splitNL_cons_ne c rest hc l0 ls hsp]
    rfl

theorem joinNL_concat_nil (ls : List (List Char)) (hne : ls ≠ []) :
    joinNL (ls ++ [[]]) = joinNL ls ++ ['\n'] := by
  induction ls using joinNL.induct with
  | case1 => exact absurd rfl hne
  | case2 l =>
    show joinNL [l, []] = joinNL [l] ++ ['\n']
    rw [joinNL_cons_cons]
    rfl
  | case3 l m ls ih =>
    have h2 := ih (by simp)
    simp only [List.cons_append] at h2 ⊢
    rw [joinNL_cons_cons, joinNL_cons_cons, h2]
    simp

theorem mem_joinNL (ls : List (List Char)) (c : Char) (h : c ∈ joinNL ls) :
    c = '\n' ∨ ∃ m ∈ ls, c ∈ m := by
  induction ls using joinNL.induct with
  | case1 => simp [joinNL] at h
  | case2 l =>
    simp only [joinNL] at h
    exact Or.inr ⟨l, List.mem_singleton.2 rfl, h⟩
  | case3 l m ls ih =>
    rw [joinNL_cons_cons] at h
    rcases List.mem_append.1 h with h1 | h2
    · exact Or.inr ⟨l, List.mem_cons_self _ _, h1⟩
    · rcases List.mem_cons.1 h2 with rfl | h3
      · exact Or.inl rfl
      · rcases ih h3 with h4 | ⟨m2, hm2, hc2⟩
        · exact Or.inl h4
        · exact Or.inr ⟨m2, List.mem_cons_of_mem _ hm2, hc2⟩

theorem stripLine_idem (l : List Char) :
    stripLine (stripLine l) = stripLine l := by
  unfold stripLine
  have h1 : List.rdropWhile isSpaceTab
      (List.dropWhile isSpaceTab (List.rdropWhile isSpaceTab l)) =
      List.dropWhile isSpaceTab (List.rdropWhile isSpaceTab l) := by
    rw [List.rdropWhile_eq_self_iff]
    intro hl
    have hy0 : List.rdropWhile isSpaceTab l ≠ [] := by
      intro h0
      apply hl
      rw [h0]
      rfl
    obtain ⟨t, ht⟩ := List.dropWhile_suffix
      (l := List.rdropWhile isSpaceTab l) isSpaceTab
    have hql : (List.dropWhile isSpaceTab (List.rdropWhile isSpaceTab l)).getLast? =
        (List.rdropWhile isSpaceTab l).getLast? := by
      conv_rhs => rw [← ht]
      exact (List.getLast?_append_of_ne_nil t hl).symm
    have hlast : (List.dropWhile isSpaceTab (List.rdropWhile isSpaceTab l)).getLast hl =
        (List.rdropWhile isSpaceTab l).getLast hy0 := by
      have e1 := List.getLast?_eq_getLast
        (List.dropWhile isSpaceTab (List.rdropWhile isSpaceTab l)) hl
      have e2 := List.getLast?_eq_getLast (List.rdropWhile isSpaceTab l) hy0
      rw [e1, e2] at hql
      exact Option.some.inj hql
    rw [hlast]
    exact List.rdropWhile_last_not _ _ hy0
  rw [h1, List.dropWhile_idempotent]

theorem map_stripLine_fixed (X : List (List Char))
    (h : ∀ m ∈ X, stripLine m = m) : X.map stripLine = X := by
  induction X with
  | nil => rfl
  | cons a as ih =>
    rw [List.map_cons, h a (List.mem_cons_self _ _),
      ih (fun m hm => h m (List.mem_cons_of_mem _ hm))]

/-- Structural facts about `_cleanForDigest`'s output, shared by the
canonicalization theorems: no CR survives, every line is fixed under
whitespace stripping, and the result ends with an LF. -/
theorem cleanForDigest_props (s : List Char) :
    '\r' ∉ cleanForDigest s ∧
    (∀ m ∈ splitNL (cleanForDigest s), stripLine m = m) ∧
    (cleanForDigest s).getLast? = some '\n' := by
  have hdef : cleanForDigest s =
      if (joinNL ((splitNL (normCR s)).map stripLine)).getLast? = some '\n'
      then joinNL ((splitNL (normCR s)).map stripLine)
      else joinNL ((splitNL (normCR s)).map stripLine) ++ ['\n'] := rfl
  have hmsne : (splitNL (normCR s)).map stripLine ≠ [] := by
    intro h0
    exact splitNL_ne_nil (normCR s) (List.map_eq_nil_iff.1 h0)
  have hfree : ∀ m ∈ (splitNL (normCR s)).map stripLine, '\n' ∉ m := by
    intro m hm hc
    obtain ⟨m0, hm0, rfl⟩ := List.mem_map.1 hm
    exact splitNL_no_nl (normCR s) m0 hm0 (stripLine_subset m0 _ hc)
  have hfixed : ∀ m ∈ (splitNL (normCR s)).map stripLine, stripLine m = m := by
    intro m hm
    obtain ⟨m0, _, rfl⟩ := List.mem_map.1 hm
    exact stripLine_idem m0
  have hnocr : '\r' ∉ joinNL ((splitNL (normCR s)).map stripLine) := by
    intro hc
    rcases mem_joinNL _ '\r' hc with h1 | ⟨m, hm, hcm⟩
    · exact absurd h1 (by decide)
    · obtain ⟨m0, hm0, rfl⟩ := List.mem_map.1 hm
      exact normCR_no_cr s
        (splitNL_subset (normCR s) m0 hm0 '\r' (stripLine_subset m0 '\r' hcm))
  by_cases hend :
      (joinNL ((splitNL (normCR s)).map stripLine)).getLast? = some '\n'
  · rw [hdef, if_pos hend]
    refine ⟨hnocr, ?_, hend⟩
    rw [splitNL_joinNL _ hmsne hfree]
    exact hfixed
  · rw [hdef, if_neg hend]
    refine ⟨?_, ?_, List.getLast?_concat _⟩
    · intro hc
      rcases List.mem_append.1 hc with h1 | h2
      · exact hnocr h1
      · exact absurd (List.mem_singleton.1 h2) (by decide)
    · intro m hm
      rw [splitNL_concat_nl, splitNL_joinNL _ hmsne hfree] at hm
      rcases List.mem_append.1 hm with h1 | h2
      · exact hfixed m h1
      · rw [List.mem_singleton.1 h2]
        rfl

/-- **C3 (counterexample).** `_cleanForDigest` only appends an LF when one is
missing; it does not collapse pre-existing trailing LFs.  On input `"a\n\n"`
the output is unchanged and ends with two LFs, so it does not end with
*exactly one* trailing LF. -/
theorem C3_counterexample :
    cleanForDigest ['a', '\n', '\n'] = ['a', '\n', '\n'] ∧
    ¬ ((cleanForDigest ['a', '\n', '\n']).getLast? = some '\n' ∧
       (cleanForDigest ['a', '\n', '\n']).dropLast.getLast? ≠ some '\n') := by
  constructor <;> decide

/-- **C3 (amended).** `_cleanForDigest(s)` contains no CR (every CR / CRLF
became a single LF), every line of the result is fixed under
trailing-then-leading space/tab stripping, and the result ends with at
least one trailing LF (an LF is appended only when the string does not
already end with one; multiple existing trailing LFs are preserved). -/
theorem C3_clean_canonical (s : List Char) :
    '\r' ∉ cleanForDigest s ∧
    (∀ m ∈ splitNL (cleanForDigest s), stripLine m = m) ∧
    (cleanForDigest s).getLast? = some '\n' :=
  cleanForDigest_props s

/-- Witness for C3 on a concrete string with a CR and stray whitespace. -/
theorem C3_clean_canonical_witness :
    '\r' ∉ cleanForDigest [' ', 'a', '\r'] ∧ stripLine ['a'] = ['a'] :=
  ⟨(C3_clean_canonical [' ', 'a', '\r']).1,
   (C3_clean_canonical [' ', 'a', '\r']).2.1 ['a'] (by decide)⟩

/-- **C4.** The canonicalization transform is idempotent:
`_cleanForDigest(_cleanForDigest(b)) = _cleanForDigest(b)`. -/
theorem C4_clean_idempotent (s : List Char) :
    cleanForDigest (cleanForDigest s) = cleanForDigest s := by
  obtain ⟨h1, h2, h3⟩ := cleanForDigest_props s
  have hdef : cleanForDigest (cleanForDigest s) =
      if (joinNL ((splitNL (normCR (cleanForDigest s))).map stripLine)).getLast?
          = some '\n'
      then joinNL ((splitNL (normCR (cleanForDigest s))).map stripLine)
      else joinNL ((splitNL (normCR (cleanForDigest s))).map stripLine) ++ ['\n'] :=
    rfl
  rw [hdef, normCR_eq_self _ h1, map_stripLine_fixed _ h2, joinNL_splitNL,
    if_pos h3]

/-! ## Mix-pool conservation (`MixPool.queueObject` / `MixPool.mix`) -/

/-- The three queues touched by `MixPool`: its own pool, the outgoing queue
(`queueDeliveryMessage`) and the module manager (`queueDecodedMessage`),
as multisets of stored objects. -/
structure PoolState where
  pool : Multiset PoolObj
  outgoing : Multiset PoolObj
  exitQ : Multiset PoolObj
deriving DecidableEq

/-- The empty initial state of the three queues. -/
def initialPoolState : PoolState := ⟨0, 0, 0⟩

/-- `MixPool.queueObject`: the implicit `obj.isDelivery()` typecheck raises
on a tuple-format object, which therefore never enters the pool; any other
object is inserted. -/
def queueObject (s : PoolState) (o : PoolObj) : PoolState :=
  match isDeliveryCheck o with
  | none => s
  | some _ => { s with pool := o ::ₘ s.pool }

/-- One iteration of the dispatch loop of `MixPool.mix` for a selected
handle: obsolete tuples are skipped but still removed; deliveries go to the
module manager, relays to the outgoing queue; in each case
`removeMessage(h)` deletes the entry from the pool. -/
def dispatchOne (s : PoolState) (o : PoolObj) : PoolState :=
  match o with
  | .obsolete _ => { s with pool := s.pool.erase o }
  | .delivery _ =>
    { pool := s.pool.erase o, outgoing := s.outgoing, exitQ := o ::ₘ s.exitQ }
  | .relay _ =>
    { pool := s.pool.erase o, outgoing := o ::ₘ s.outgoing, exitQ := s.exitQ }

/-- The dispatch loop of `MixPool.mix` over the batch chosen by
`getBatch`. -/
def mixDispatch (s : PoolState) (batch : List PoolObj) : PoolState :=
  batch.foldl dispatchOne s

/-- An operation on the mix pool: an insertion from the processing thread,
or a mix tick with the batch `getBatch` selected. -/
inductive PoolOp
  | enqueue (o : PoolObj)
  | mixTick (batch : List PoolObj)
deriving DecidableEq

/-- Run a sequence of pool operations. -/
def runPoolOps (s : PoolState) : List PoolOp → PoolState
  | [] => s
  | .enqueue o :: rest => runPoolOps (queueObject s o) rest
  | .mixTick b :: rest => runPoolOps (mixDispatch s b) rest

/-- `getBatch` returns (distinct) handles present in the pool: the batch is
drawn without replacement from the pool's contents. -/
def batchFrom : Multiset PoolObj → List PoolObj → Bool
  | _, [] => true
  | pool, o :: rest => decide (o ∈ pool) && batchFrom (pool.erase o) rest

/-- Every mix tick of the run draws its batch from the pool contents at
that moment. -/
def goodBatches : PoolState → List PoolOp → Bool
  | _, [] => true
  | s, .enqueue o :: rest => goodBatches (queueObject s o) rest
  | s, .mixTick b :: rest => batchFrom s.pool b && goodBatches (mixDispatch s b) rest

/-- The multiset of objects that entered the pool through `queueObject`
(those passing the `isDelivery` typecheck). -/
def enteredPool : List PoolOp → Multiset PoolObj
  | [] => 0
  | .enqueue o :: rest =>
    (if (isDeliveryCheck o).isSome then {o} else 0) + enteredPool rest
  | .mixTick _ :: rest => enteredPool rest

/-- Typing invariant of the three queues: the pool holds only objects that
passed the typecheck, the outgoing queue only relays, the module manager
only deliveries. -/
def poolStateInv (s : PoolState) : Prop :=
  (∀ o ∈ s.pool, (isDeliveryCheck o).isSome) ∧
  (∀ o ∈ s.outgoing, isDeliveryCheck o = some false) ∧
  (∀ o ∈ s.exitQ, isDeliveryCheck o = some true)

theorem dispatchOne_inv (s : PoolState) (o : PoolObj) (hmem : o ∈ s.pool)
    (hinv : poolStateInv s) (hsome : (isDeliveryCheck o).isSome) :
    (dispatchOne s o).pool + (dispatchOne s o).outgoing + (dispatchOne s o).exitQ
      = s.pool + s.outgoing + s.exitQ ∧
    (dispatchOne s o).pool = s.pool.erase o ∧
    poolStateInv (dispatchOne s o) := by
  have hcons : o ::ₘ s.pool.erase o = s.pool := Multiset.cons_erase hmem
  obtain ⟨hip, hio, hie⟩ := hinv
  cases o with
  | obsolete i => simp [isDeliveryCheck] at hsome
  | delivery i =>
    refine ⟨?_, rfl, ?_⟩
    · show s.pool.erase (.delivery i) + s.outgoing + (.delivery i ::ₘ s.exitQ)
        = s.pool + s.outgoing + s.exitQ
      conv_rhs => rw [← hcons]
      simp [Multiset.add_cons, Multiset.cons_add]
    · refine ⟨fun x hx => hip x (Multiset.mem_of_mem_erase hx), hio, ?_⟩
      intro x hx
      rcases Multiset.mem_cons.1 hx with rfl | hx2
      · rfl
      · exact hie x hx2
  | relay i =>
    refine ⟨?_, rfl, ?_⟩
    · show s.pool.erase (.relay i) + (.relay i ::ₘ s.outgoing) + s.exitQ
        = s.pool + s.outgoing + s.exitQ
      conv_rhs => rw [← hcons]
      simp [Multiset.add_cons, Multiset.cons_add]
    · refine ⟨fun x hx => hip x (Multiset.mem_of_mem_erase hx), ?_, hie⟩
      intro x hx
      rcases Multiset.mem_cons.1 hx with rfl | hx2
      · rfl
      · exact hio x hx2

theorem mixDispatch_inv (b : List PoolObj) : ∀ (s : PoolState),
    batchFrom s.pool b = true → poolStateInv s →
    (mixDispatch s b).pool + (mixDispatch s b).outgoing + (mixDispatch s b).exitQ
      = s.pool + s.outgoing + s.exitQ ∧ poolStateInv (mixDispatch s b) := by
  induction b with
  | nil => exact fun s _ hinv => ⟨rfl, hinv⟩
  | cons o rest ih =>
    intro s hb hinv
    rw [batchFrom, Bool.and_eq_true, decide_eq_true_eq] at hb
    obtain ⟨hmem, hb2⟩ := hb
    have hsome := hinv.1 o hmem
    obtain ⟨hsum, hpool, hinv2⟩ := dispatchOne_inv s o hmem hinv hsome
    have hb3 : batchFrom (dispatchOne s o).pool rest = true := by
      rw [hpool]; exact hb2
    have h1 := ih (dispatchOne s o) hb3 hinv2
    have hrun : mixDispatch s (o :: rest) = mixDispatch (dispatchOne s o) rest :=
      rfl
    rw [hrun, h1.1, hsum]
    exact ⟨rfl, h1.2⟩

theorem runPoolOps_inv (ops : List PoolOp) : ∀ (s : PoolState),
    goodBatches s ops = true → poolStateInv s →
    (runPoolOps s ops).pool + (runPoolOps s ops).outgoing +
        (runPoolOps s ops).exitQ
      = s.pool + s.outgoing + s.exitQ + enteredPool ops ∧
    poolStateInv (runPoolOps s ops) := by
  induction ops with
  | nil => exact fun s _ hinv => ⟨by simp [runPoolOps, enteredPool], hinv⟩
  | cons op rest ih =>
    intro s hg hinv
    cases op with
    | enqueue o =>
      rw [goodBatches] at hg
      have hrun : runPoolOps s (.enqueue o :: rest)
          = runPoolOps (queueObject s o) rest := rfl
      rcases hcheck : isDeliveryCheck o with _ | b
      · have hq : queueObject s o = s := by simp [queueObject, hcheck]
        have h1 := ih s (by rw [← hq]; exact hg) hinv
        rw [hrun, hq, enteredPool, hcheck]
        simpa using h1
      · have hq : queueObject s o = { s with pool := o ::ₘ s.pool } := by
          simp [queueObject, hcheck]
        have hinv2 : poolStateInv { s with pool := o ::ₘ s.pool } := by
          refine ⟨fun x hx => ?_, hinv.2.1, hinv.2.2⟩
          rcases Multiset.mem_cons.1 hx with rfl | hx2
          · simp [hcheck]
          · exact hinv.1 x hx2
        have h1 := ih (queueObject s o) (by exact hg) (hq ▸ hinv2)
        rw [hrun]
        rw [hq] at h1 ⊢
        refine ⟨?_, h1.2⟩
        rw [h1.1, enteredPool, hcheck]
        dsimp only
        rw [if_pos (by rfl)]
        rw [← Multiset.singleton_add]
        abel
    | mixTick b =>
      rw [goodBatches, Bool.and_eq_true] at hg
      obtain ⟨hb, hg2⟩ := hg
      have hmix := mixDispatch_inv b s hb hinv
      have h1 := ih (mixDispatch s b) hg2 hmix.2
      have hrun : runPoolOps s (.mixTick b :: rest)
          = runPoolOps (mixDispatch s b) rest := rfl
      rw [hrun]
      refine ⟨?_, h1.2⟩
      rw [h1.1, hmix.1, enteredPool]

/-- **C2.** Conservation of the mix pool: over any sequence of
`queueObject` insertions and mix ticks (whose batches are drawn from the
pool), the multiset of objects that entered the pool equals the multiset
dispatched out of it plus the multiset still in the pool; dispatched
objects sit in exactly one of the outgoing queue (relays) or the module
manager (deliveries), so nothing is removed from the pool without being
dispatched. -/
theorem C2_pool_conservation (ops : List PoolOp)
    (h : goodBatches initialPoolState ops = true) :
    enteredPool ops =
      ((runPoolOps initialPoolState ops).outgoing +
        (runPoolOps initialPoolState ops).exitQ) +
      (runPoolOps initialPoolState ops).pool ∧
    (∀ o ∈ (runPoolOps initialPoolState ops).outgoing,
      isDeliveryCheck o = some false) ∧
    (∀ o ∈ (runPoolOps initialPoolState ops).exitQ,
      isDeliveryCheck o = some true) := by
  have hinv0 : poolStateInv initialPoolState := by
    refine ⟨?_, ?_, ?_⟩ <;> intro o ho <;> simp [initialPoolState] at ho
  obtain ⟨hsum, hinv⟩ := runPoolOps_inv ops initialPoolState h hinv0
  refine ⟨?_, hinv.2.1, hinv.2.2⟩
  have hz : initialPoolState.pool + initialPoolState.outgoing +
      initialPoolState.exitQ = 0 := rfl
  rw [hz, zero_add] at hsum
  rw [← hsum]
  abel

/-- Witness for C2: two insertions followed by a mix tick that dispatches
the delivery packet. -/
theorem C2_pool_conservation_witness :
    enteredPool
        [PoolOp.enqueue (.delivery 0), PoolOp.enqueue (.relay 1),
         PoolOp.mixTick [.delivery 0]] =
      ((runPoolOps initialPoolState
          [PoolOp.enqueue (.delivery 0), PoolOp.enqueue (.relay 1),
           PoolOp.mixTick [.delivery 0]]).outgoing +
        (runPoolOps initialPoolState
          [PoolOp.enqueue (.delivery 0), PoolOp.enqueue (.relay 1),
           PoolOp.mixTick [.delivery 0]]).exitQ) +
      (runPoolOps initialPoolState
        [PoolOp.enqueue (.delivery 0), PoolOp.enqueue (.relay 1),
         PoolOp.mixTick [.delivery 0]]).pool :=
  (C2_pool_conservation
    [PoolOp.enqueue (.delivery 0), PoolOp.enqueue (.relay 1),
     PoolOp.mixTick [.delivery 0]] (by decide)).1

/-! ## Key generation ahead of time (`ServerKeyring.createKeysAsNeeded`) -/

/-- `PUBLICATION_LATENCY`: 3 days, in seconds. -/
def PUBLICATION_LATENCY : Int := 3 * 24 * 60 * 60

/-- `PREPUBLICATION_INTERVAL`: 2 weeks, in seconds. -/
def PREPUBLICATION_INTERVAL : Int := 14 * 24 * 60 * 60

/-- `mixminion.Common.previousMidnight`: round down to the previous UTC
midnight (Python `%` on a positive modulus, i.e. `emod`). -/
def previousMidnight (t : Int) : Int := t - t % 86400

/-- `mixminion.Common.ceilDiv(a, b) = (a + b - 1) // b` with Python floor
division (`Int.fdiv`). -/
def ceilDiv (a b : Int) : Int := (a + b - 1).fdiv b

/-- A keyring's key sets, as `(Valid-After, Valid-Until)` pairs in the
order `checkKeys` keeps them (sorted by start). -/
abbrev KeySets := List (Int × Int)

/-- `ServerKeyring.getNextKeygen`: `-1` (right now) for an empty keyring,
else the last key's expiry minus `PUBLICATION_LATENCY`. -/
def getNextKeygen (ks : KeySets) : Int :=
  match ks.getLast? with
  | none => -1
  | some (_, vu) => vu - PUBLICATION_LATENCY

/-- The expiry the keyring plans from: `keySets[-1][1]`, or `now` when the
keyring is empty (both `createKeysAsNeeded` and `createKeys` use this
base). -/
def lastExpiryOrNow (ks : KeySets) (now : Int) : Int :=
  match ks.getLast? with
  | none => now
  | some (_, vu) => vu

/-- The keys generated by the loop in `ServerKeyring.createKeys`: each slot
runs for one `PublicKeyLifetime` starting where the previous one ended
(`generateServerDescriptorAndKeys` re-rounds `validAt + 30` to the previous
midnight, which is the identity on the already-midnight-aligned
`startAt`). -/
def genKeys (lifetime : Int) : Int → Nat → KeySets
  | _, 0 => []
  | startAt, n + 1 =>
    (startAt, startAt + lifetime) :: genKeys lifetime (startAt + lifetime) n

/-- `ServerKeyring.createKeys(num)` with no explicit `startAt`: start at
the last expiry plus 60 seconds (or `now + 60` on an empty keyring),
rounded down to the previous midnight; `xrange(num)` generates nothing
when `num <= 0` (`Int.toNat`). -/
def createKeys (ks : KeySets) (num : Int) (now lifetime : Int) : KeySets :=
  ks ++ genKeys lifetime (previousMidnight (lastExpiryOrNow ks now + 60)) num.toNat

/-- `ServerKeyring.createKeysAsNeeded(now)`: do nothing while the next
keygen time is still more than 10 seconds away; otherwise create
`ceilDiv(lastExpiry + PREPUBLICATION_INTERVAL - now, lifetime)` keys. -/
def createKeysAsNeeded (ks : KeySets) (now lifetime : Int) : KeySets :=
  if getNextKeygen ks > now - 10 then ks
  else
    createKeys ks
      (ceilDiv (lastExpiryOrNow ks now + PREPUBLICATION_INTERVAL - now) lifetime)
      now lifetime

/-- The keyring's coverage end: the largest `Valid-Until` on file (for a
keyring kept sorted this is the last key's expiry, the quantity
`getNextKeygen` plans from). -/
def coverageEnd (ks : KeySets) : Int := (ks.map Prod.snd).foldl max 0

theorem le_foldl_max_init (l : List Int) (a : Int) : a ≤ l.foldl max a := by
  induction l generalizing a with
  | nil => exact le_refl a
  | cons y ys ih => exact le_trans (le_max_left a y) (ih (max a y))

theorem mem_le_foldl_max (l : List Int) (a x : Int) (h : x ∈ l) :
    x ≤ l.foldl max a := by
  induction l generalizing a with
  | nil => simp at h
  | cons y ys ih =>
    rcases List.mem_cons.1 h with rfl | h2
    · exact le_trans (le_max_right a x) (le_foldl_max_init ys (max a x))
    · exact ih (max a y) h2

theorem previousMidnight_le (t : Int) : previousMidnight t ≤ t := by
  unfold previousMidnight
  have h := Int.emod_nonneg t (by norm_num : (86400:Int) ≠ 0)
  omega

theorem previousMidnight_gt (t : Int) : t - 86400 < previousMidnight t := by
  unfold previousMidnight
  have h := Int.emod_lt_of_pos t (by norm_num : (0:Int) < 86400)
  omega

theorem ceilDiv_mul_ge (a b : Int) (hb : 0 < b) : a ≤ ceilDiv a b * b := by
  unfold ceilDiv
  rw [Int.fdiv_eq_ediv _ hb.le]
  have h1 := Int.ediv_add_emod (a + b - 1) b
  have h2 := Int.emod_nonneg (a + b - 1) (ne_of_gt hb)
  have h3 := Int.emod_lt_of_pos (a + b - 1) hb
  have h4 : (a + b - 1) / b * b = b * ((a + b - 1) / b) := mul_comm _ _
  linarith

theorem ceilDiv_pos (a b : Int) (hb : 0 < b) (ha : 0 < a) : 0 < ceilDiv a b := by
  by_contra hcon
  push_neg at hcon
  have h1 := ceilDiv_mul_ge a b hb
  have h2 : ceilDiv a b * b ≤ 0 := mul_nonpos_of_nonpos_of_nonneg hcon hb.le
  linarith

theorem genKeys_cover (lifetime : Int) : ∀ (n : Nat) (startAt : Int), 0 < n →
    ∃ va, (va, startAt + (n : Int) * lifetime) ∈ genKeys lifetime startAt n := by
  intro n
  induction n with
  | zero => exact fun _ h => absurd h (lt_irrefl 0)
  | succ m ih =>
    intro startAt _
    rcases Nat.eq_zero_or_pos m with hm | hm
    · subst hm
      refine ⟨startAt, ?_⟩
      rw [genKeys]
      simp
    · obtain ⟨va, hva⟩ := ih (startAt + lifetime) hm
      refine ⟨va, ?_⟩
      rw [genKeys]
      refine List.mem_cons_of_mem _ ?_
      have harith : startAt + lifetime + (m : Int) * lifetime =
          startAt + ((m : Nat) + 1 : Int) * lifetime := by ring
      push_cast at harith ⊢
      rw [← harith]
      exact hva

/-- **C9 (counterexample).** With a single keyset expiring 4 days from now,
`getNextKeygen` is still about a day away, so `createKeysAsNeeded(now)`
returns without creating anything and coverage stays at `now + 4d`, far
short of `now + PREPUBLICATION_INTERVAL` (2 weeks). -/
theorem C9_counterexample :
    createKeysAsNeeded [(999900000, 1000345600)] 1000000000 604800 =
      [(999900000, 1000345600)] ∧
    coverageEnd (createKeysAsNeeded [(999900000, 1000345600)] 1000000000 604800) <
      1000000000 + PREPUBLICATION_INTERVAL := by
  constructor <;> decide

/-- **C9 (amended).** `createKeysAsNeeded(now)` leaves the keyring unchanged
while the next keygen time (`lastExpiry - PUBLICATION_LATENCY`) is still
more than 10 seconds in the future, even if coverage falls short of
`now + PREPUBLICATION_INTERVAL`.  When a keygen is due and the current
coverage base is not already in the past (`now <= lastExpiry`), the call
creates enough keys that coverage extends to at least
`now + PREPUBLICATION_INTERVAL - 86400`, the one-day slack coming from the
rounding of the first new key's start down to the previous midnight. -/
theorem C9_coverage (ks : KeySets) (now lifetime : Int) (hlt : 0 < lifetime) :
    (getNextKeygen ks > now - 10 → createKeysAsNeeded ks now lifetime = ks) ∧
    (getNextKeygen ks ≤ now - 10 → now ≤ lastExpiryOrNow ks now →
      now + PREPUBLICATION_INTERVAL - 86400 ≤
        coverageEnd (createKeysAsNeeded ks now lifetime)) := by
  constructor
  · intro h
    unfold createKeysAsNeeded
    rw [if_pos h]
  · intro h1 h2
    unfold createKeysAsNeeded
    rw [if_neg (not_lt.2 h1)]
    have hT : 0 < lastExpiryOrNow ks now + PREPUBLICATION_INTERVAL - now := by
      have : (0:Int) < PREPUBLICATION_INTERVAL := by norm_num [PREPUBLICATION_INTERVAL]
      omega
    have hq : 0 < ceilDiv (lastExpiryOrNow ks now + PREPUBLICATION_INTERVAL - now)
        lifetime := ceilDiv_pos _ _ hlt hT
    have hqb := ceilDiv_mul_ge
      (lastExpiryOrNow ks now + PREPUBLICATION_INTERVAL - now) lifetime hlt
    have hcast : ((ceilDiv (lastExpiryOrNow ks now + PREPUBLICATION_INTERVAL - now)
        lifetime).toNat : Int) =
        ceilDiv (lastExpiryOrNow ks now + PREPUBLICATION_INTERVAL - now) lifetime :=
      Int.toNat_of_nonneg hq.le
    have hqnat : 0 < (ceilDiv (lastExpiryOrNow ks now + PREPUBLICATION_INTERVAL - now)
        lifetime).toNat := by omega
    obtain ⟨va, hmem⟩ := genKeys_cover lifetime
      (ceilDiv (lastExpiryOrNow ks now + PREPUBLICATION_INTERVAL - now) lifetime).toNat
      (previousMidnight (lastExpiryOrNow ks now + 60)) hqnat
    have hmem2 : (va, previousMidnight (lastExpiryOrNow ks now + 60) +
        ((ceilDiv (lastExpiryOrNow ks now + PREPUBLICATION_INTERVAL - now)
          lifetime).toNat : Int) * lifetime) ∈
        createKeys ks
          (ceilDiv (lastExpiryOrNow ks now + PREPUBLICATION_INTERVAL - now) lifetime)
          now lifetime := by
      unfold createKeys
      exact List.mem_append_right _ hmem
    have hcov := mem_le_foldl_max
      ((createKeys ks
          (ceilDiv (lastExpiryOrNow ks now + PREPUBLICATION_INTERVAL - now) lifetime)
          now lifetime).map Prod.snd) 0 _ (List.mem_map_of_mem Prod.snd hmem2)
    have hmid := previousMidnight_gt (lastExpiryOrNow ks now + 60)
    unfold coverageEnd
    rw [hcast] at hcov
    dsimp only at hcov
    linarith

/-- Witness for C9 (amended) on an empty keyring at a midnight-aligned
`now` with a one-week key lifetime. -/
theorem C9_coverage_witness :
    (8640000 : Int) + PREPUBLICATION_INTERVAL - 86400 ≤
      coverageEnd (createKeysAsNeeded [] 8640000 604800) :=
  (C9_coverage [] 8640000 604800 (by decide)).2 (by decide) (by decide)

/-- Witness for C1 on a two-object batch. -/
theorem C1_mix_event_order_witness :
    mixEventTrace 2 [PoolObj.relay 0, PoolObj.delivery 1] =
      [.lockPool, .syncLogs] ++ mixActs 2 [PoolObj.relay 0, PoolObj.delivery 1] ++
        [.unlockPool, .sendOutgoingReady, .sendExitReady, .reinsertMix] ∧
    (MixAct.getBatch = MixAct.getBatch ∨ ∃ o, MixAct.getBatch = dispatchAct o) :=
  ⟨(C1_mix_event_order 2 [PoolObj.relay 0, PoolObj.delivery 1]).1,
   (C1_mix_event_order 2 [PoolObj.relay 0, PoolObj.delivery 1]).2.1
     MixAct.getBatch (by decide)⟩
